import Mathlib

/-!
Verification of the user-generation pipeline in
`scripts/python/generate_users.py`.

Python strings are modelled as lists of characters (`Str`), with ASCII
semantics for `str.lower` (core `Char.toLower`) and `str.isalnum`
(core `Char.isAlphanum`); Python's `set` of issued identifiers is a
`Finset Str`; the seeded random source (`Faker` plus the global `random`
module) is an explicit state-threading structure `RandomSource`, so the
pipeline is a pure function of the initial generator state.
-/

namespace GenUsers

/-- A Python `str`, modelled as its list of characters. -/
abbrev Str : Type := List Char

/-- Python `s[:i]` where `i` is a Python `int`: a negative bound counts
from the end of the string, and out-of-range bounds are clamped. -/
def pySliceTo (s : Str) (i : Int) : Str :=
  if 0 ≤ i then s.take i.toNat else s.take (s.length - (-i).toNat)

/-- Python `[x] * n` where `n` is a Python `int`: a non-positive count
yields the empty list. -/
def pyRepeat {α : Type} (x : α) (n : Int) : List α :=
  List.replicate n.toNat x

/-- Decimal digits of `n`, most significant first, by fuel recursion;
`natReprAux f n` is the digit string of `n` whenever `n ≤ f` and `1 ≤ n`. -/
def natReprAux : Nat → Nat → Str
  | 0, _ => []
  | fuel + 1, n =>
      if n = 0 then [] else natReprAux fuel (n / 10) ++ [Char.ofNat (48 + n % 10)]

/-- Python `str(n)` for a non-negative `int` `n`. -/
def natRepr (n : Nat) : Str :=
  if n = 0 then ['0'] else natReprAux n n

theorem natReprAux_fuel : ∀ n f g : Nat, n ≤ f → n ≤ g → natReprAux f n = natReprAux g n := by
  intro n
  induction n using Nat.strong_induction_on with
  | _ n ih =>
      intro f g hf hg
      cases n with
      | zero => cases f <;> cases g <;> rfl
      | succ m =>
          cases f with
          | zero => omega
          | succ f' =>
              cases g with
              | zero => omega
              | succ g' =>
                  show natReprAux f' ((m + 1) / 10) ++ _ = natReprAux g' ((m + 1) / 10) ++ _
                  have hq : (m + 1) / 10 < m + 1 := Nat.div_lt_self (Nat.succ_pos m) (by norm_num)
                  rw [ih ((m + 1) / 10) hq f' g' (by omega) (by omega)]

theorem natRepr_unfold (n : Nat) (h : 1 ≤ n) :
    natRepr n = (if 10 ≤ n then natRepr (n / 10) else []) ++ [Char.ofNat (48 + n % 10)] := by
  match n, h with
  | m + 1, _ =>
      show natReprAux (m + 1) (m + 1) = _
      have hstep : natReprAux (m + 1) (m + 1)
          = natReprAux m ((m + 1) / 10) ++ [Char.ofNat (48 + (m + 1) % 10)] := rfl
      rw [hstep]
      by_cases h10 : 10 ≤ m + 1
      · have hq1 : 1 ≤ (m + 1) / 10 := Nat.one_le_div_iff (by norm_num) |>.2 h10
        have hqm : (m + 1) / 10 ≤ m := by
          have := Nat.div_lt_self (Nat.succ_pos m) (show 1 < 10 by norm_num)
          omega
        rw [if_pos h10]
        have hrepr : natRepr ((m + 1) / 10) = natReprAux ((m + 1) / 10) ((m + 1) / 10) := by
          rw [natRepr, if_neg (by omega)]
        rw [hrepr, natReprAux_fuel ((m + 1) / 10) m ((m + 1) / 10) hqm le_rfl]
      · have hq0 : (m + 1) / 10 = 0 := Nat.div_eq_of_lt (by omega)
        rw [if_neg h10, hq0]
        cases m with
        | zero => rfl
        | succ k => rfl

theorem natRepr_length_pos (n : Nat) : 1 ≤ (natRepr n).length := by
  by_cases h : n = 0
  · subst h; rfl
  · rw [natRepr_unfold n (by omega)]
    simp

theorem natRepr_length_le (d : Nat) : ∀ n : Nat, 1 ≤ n → n < 10 ^ d → (natRepr n).length ≤ d := by
  induction d with
  | zero => intro n h1 h2; simp at h2; omega
  | succ d ih =>
      intro n h1 h2
      rw [natRepr_unfold n h1]
      by_cases h10 : 10 ≤ n
      · rw [if_pos h10]
        have hq1 : 1 ≤ n / 10 := Nat.one_le_div_iff (by norm_num) |>.2 h10
        have hq2 : n / 10 < 10 ^ d := by
          rw [Nat.div_lt_iff_lt_mul (by norm_num)]
          calc n < 10 ^ (d + 1) := h2
          _ = 10 ^ d * 10 := by ring
        have := ih (n / 10) hq1 hq2
        simp only [List.length_append, List.length_cons, List.length_nil]
        omega
      · rw [if_neg h10]
        simp

theorem natRepr_length_ge (d : Nat) : ∀ n : Nat, 10 ^ d ≤ n → d + 1 ≤ (natRepr n).length := by
  induction d with
  | zero => intro n h; exact natRepr_length_pos n
  | succ d ih =>
      intro n h
      have h10 : 10 ≤ n := le_trans (by
        calc (10 : Nat) = 10 ^ 1 := (pow_one 10).symm
        _ ≤ 10 ^ (d + 1) := Nat.pow_le_pow_right (by norm_num) (by omega)) h
      rw [natRepr_unfold n (by omega), if_pos h10]
      have hq : 10 ^ d ≤ n / 10 := by
        rw [Nat.le_div_iff_mul_le (by norm_num)]
        calc 10 ^ d * 10 = 10 ^ (d + 1) := by ring
        _ ≤ n := h
      have := ih (n / 10) hq
      simp only [List.length_append, List.length_cons, List.length_nil]
      omega

theorem charToNat_ofNat_small (n : Nat) (h : n < 55296) : (Char.ofNat n).toNat = n := by
  have hv : n.isValidChar := Or.inl h
  rw [Char.ofNat, dif_pos hv]
  rfl

theorem natRepr_digits (n : Nat) : ∀ c ∈ natRepr n, 48 ≤ c.toNat ∧ c.toNat ≤ 57 := by
  induction n using Nat.strong_induction_on with
  | _ n ih =>
      intro c hc
      by_cases h0 : n = 0
      · subst h0
        have h00 : natRepr 0 = ['0'] := rfl
        rw [h00, List.mem_singleton] at hc
        subst hc
        decide
      · rw [natRepr_unfold n (by omega)] at hc
        rcases List.mem_append.1 hc with h | h
        · by_cases h10 : 10 ≤ n
          · rw [if_pos h10] at h
            exact ih (n / 10) (Nat.div_lt_self (by omega) (by norm_num)) c h
          · rw [if_neg h10] at h; simp at h
        · have : c = Char.ofNat (48 + n % 10) := by simpa using h
          subst this
          have hm : n % 10 < 10 := Nat.mod_lt _ (by norm_num)
          have := charToNat_ofNat_small (48 + n % 10) (by omega)
          omega

/-- Decimal value of a digit string: left inverse of `natRepr`. -/
def unRepr (s : Str) : Nat :=
  s.foldl (fun a c => 10 * a + (c.toNat - 48)) 0

theorem unRepr_aux (n : Nat) : ∀ a : Nat,
    (natRepr n).foldl (fun a c => 10 * a + (c.toNat - 48)) a = a * 10 ^ (natRepr n).length + n := by
  induction n using Nat.strong_induction_on with
  | _ n ih =>
      intro a
      by_cases h0 : n = 0
      · subst h0; simp [natRepr]; ring
      · rw [natRepr_unfold n (by omega)]
        by_cases h10 : 10 ≤ n
        · rw [if_pos h10]
          rw [List.foldl_append]
          have hdiv : n / 10 < n := Nat.div_lt_self (by omega) (by norm_num)
          rw [ih (n / 10) hdiv a]
          have hofn : (Char.ofNat (48 + n % 10)).toNat = 48 + n % 10 :=
            charToNat_ofNat_small _ (by have := Nat.mod_lt n (show 0 < 10 by norm_num); omega)
          simp only [List.foldl_cons, List.foldl_nil, List.length_append, List.length_cons,
            List.length_nil, hofn]
          have hmod : 48 + n % 10 - 48 = n % 10 := by omega
          rw [hmod]
          have hdm : 10 * (n / 10) + n % 10 = n := Nat.div_add_mod n 10
          calc 10 * (a * 10 ^ (natRepr (n / 10)).length + n / 10) + n % 10
              = a * (10 ^ (natRepr (n / 10)).length * 10) + (10 * (n / 10) + n % 10) := by ring
          _ = a * 10 ^ ((natRepr (n / 10)).length + 1) + n := by rw [hdm, ← pow_succ]
        · rw [if_neg h10]
          have hmod : n % 10 = n := Nat.mod_eq_of_lt (by omega)
          have hofn : (Char.ofNat (48 + n)).toNat = 48 + n :=
            charToNat_ofNat_small _ (by omega)
          simp only [List.nil_append, List.foldl_cons, List.foldl_nil, List.length_cons,
            List.length_nil, hmod, hofn]
          have hp : a * 10 ^ (0 + 1) = a * 10 := by norm_num
          rw [hp]
          omega

theorem unRepr_natRepr (n : Nat) : unRepr (natRepr n) = n := by
  have := unRepr_aux n 0
  simpa [unRepr] using this

theorem natRepr_injective : Function.Injective natRepr := by
  intro m n h
  have : unRepr (natRepr m) = unRepr (natRepr n) := by rw [h]
  rwa [unRepr_natRepr, unRepr_natRepr] at this

/-- A lowercase-alphanumeric character: an ASCII digit or lowercase letter. -/
def isLowerAlnum (c : Char) : Prop :=
  (48 ≤ c.toNat ∧ c.toNat ≤ 57) ∨ (97 ≤ c.toNat ∧ c.toNat ≤ 122)

instance (c : Char) : Decidable (isLowerAlnum c) := by
  unfold isLowerAlnum
  infer_instance

theorem charIsDigit_iff (c : Char) : c.isDigit = true ↔ 48 ≤ c.toNat ∧ c.toNat ≤ 57 := by
  simp [Char.isDigit, UInt32.le_def, BitVec.le_def, Char.toNat, UInt32.toNat]

theorem charIsLower_iff (c : Char) : c.isLower = true ↔ 97 ≤ c.toNat ∧ c.toNat ≤ 122 := by
  simp [Char.isLower, UInt32.le_def, BitVec.le_def, Char.toNat, UInt32.toNat]

theorem charIsUpper_iff (c : Char) : c.isUpper = true ↔ 65 ≤ c.toNat ∧ c.toNat ≤ 90 := by
  simp [Char.isUpper, UInt32.le_def, BitVec.le_def, Char.toNat, UInt32.toNat]

theorem toLower_alnum (c : Char) (h : (Char.toLower c).isAlphanum = true) :
    isLowerAlnum (Char.toLower c) := by
  have hd : Char.toLower c
      = if 65 ≤ c.toNat ∧ c.toNat ≤ 90 then Char.ofNat (c.toNat + 32) else c := by
    simp [Char.toLower, Char.toNat]
  by_cases hc : 65 ≤ c.toNat ∧ c.toNat ≤ 90
  · rw [hd, if_pos hc]
    have hval := charToNat_ofNat_small (c.toNat + 32) (by omega)
    unfold isLowerAlnum
    rw [hval]
    omega
  · rw [hd, if_neg hc] at h ⊢
    have halt : c.isUpper = true ∨ c.isLower = true ∨ c.isDigit = true := by
      simpa [Char.isAlphanum, Char.isAlpha, Bool.or_assoc] using h
    rcases halt with hup | hlow | hdig
    · exact absurd ((charIsUpper_iff c).1 hup) hc
    · exact Or.inr ((charIsLower_iff c).1 hlow)
    · exact Or.inl ((charIsDigit_iff c).1 hdig)

/-- Lines 51-52 of `generate_users.py`:
`base = f"{first_name[0]}{last_name}".lower()` and then
`base = "".join(c for c in base if c.isalnum())[:20]`. `first_name[0]` is
modelled as `first_name.take 1` (Python raises `IndexError` on an empty
first name, so only non-empty draws reach this code). -/
def samBase (first_name last_name : Str) : Str :=
  (((first_name.take 1 ++ last_name).map Char.toLower).filter Char.isAlphanum).take 20

theorem samBase_length (f l : Str) : (samBase f l).length ≤ 20 := by
  unfold samBase
  rw [List.length_take]
  exact min_le_left _ _

theorem samBase_chars (f l : Str) : ∀ c ∈ samBase f l, isLowerAlnum c := by
  intro c hc
  have h1 : c ∈ ((f.take 1 ++ l).map Char.toLower).filter Char.isAlphanum :=
    List.take_subset _ _ hc
  have h2 : Char.isAlphanum c = true := List.of_mem_filter h1
  have h3 : c ∈ (f.take 1 ++ l).map Char.toLower := List.mem_of_mem_filter h1
  obtain ⟨c0, _, rfl⟩ := List.mem_map.1 h3
  exact toLower_alnum c0 h2

/-- One candidate of the collision loop, line 56-57 of `generate_users.py`:
`suffix = str(counter)` and `sam = f"{base[:20-len(suffix)]}{suffix}"`.
Note that `20 - len(suffix)` is a Python `int` and may be negative. -/
def suffixedSam (base : Str) (counter : Nat) : Str :=
  let suffix := natRepr counter
  pySliceTo base ((20 : Int) - suffix.length) ++ suffix

theorem pySliceTo_subset (s : Str) (i : Int) : pySliceTo s i ⊆ s := by
  unfold pySliceTo
  split_ifs <;> exact List.take_subset _ _

theorem suffixedSam_chars (base : Str) (k : Nat) (hb : ∀ x ∈ base, isLowerAlnum x) :
    ∀ c ∈ suffixedSam base k, isLowerAlnum c := by
  intro c hc
  simp only [suffixedSam] at hc
  rcases List.mem_append.1 hc with h | h
  · exact hb c (pySliceTo_subset _ _ h)
  · exact Or.inl (natRepr_digits k c h)

theorem suffixedSam_of_long (base : Str) (k : Nat)
    (h : base.length + 20 ≤ (natRepr k).length) :
    suffixedSam base k = natRepr k := by
  simp only [suffixedSam, pySliceTo]
  split_ifs with h0
  · have hlen0 : base.length = 0 := by omega
    rw [List.length_eq_zero.1 hlen0]
    simp
  · have hto : (-(20 - ((natRepr k).length : Int))).toNat = (natRepr k).length - 20 := by
      omega
    rw [hto]
    have hz : base.length - ((natRepr k).length - 20) = 0 := by omega
    rw [hz, List.take_zero, List.nil_append]

theorem suffixedSam_of_len20 (base : Str) (k : Nat) (h : (natRepr k).length = 20) :
    suffixedSam base k = natRepr k := by
  simp only [suffixedSam, pySliceTo, h]
  norm_num

theorem suffixedSam_length_le (base : Str) (k : Nat) (h1 : 1 ≤ k) (h2 : k < 10 ^ 20) :
    (suffixedSam base k).length ≤ 20 := by
  have hd : (natRepr k).length ≤ 20 := natRepr_length_le 20 k h1 h2
  simp only [suffixedSam, pySliceTo, List.length_append]
  split_ifs with h0
  · have hlt : (List.take (((20 : Int) - (natRepr k).length).toNat) base).length
        ≤ ((20 : Int) - (natRepr k).length).toNat := by
      rw [List.length_take]
      exact min_le_left _ _
    have hto : ((20 : Int) - (natRepr k).length).toNat = 20 - (natRepr k).length := by omega
    omega
  · exfalso
    omega

/-- The collision loop of `generate_sam_account_name` always finds an unused
candidate on a finite seen-set: a counter with enough decimal digits maps,
after the (then empty) slice of `base`, to its own digit string, and those
digit strings are more numerous than any finite set. -/
theorem exists_unused_suffix (base : Str) (existing : Finset Str) :
    ∃ n : Nat, suffixedSam base (n + 1) ∉ existing := by
  by_contra hall
  push_neg at hall
  set E := base.length + 20 + existing.card with hE
  have hmaps : ∀ k ∈ Finset.Ico (10 ^ E) (10 ^ E + existing.card + 1),
      natRepr k ∈ existing := by
    intro k hk
    rw [Finset.mem_Ico] at hk
    have hk1 : 1 ≤ k := le_trans (Nat.one_le_pow _ _ (by norm_num)) hk.1
    have hlen : base.length + 20 ≤ (natRepr k).length := by
      have := natRepr_length_ge E k hk.1
      omega
    have hmem := hall (k - 1)
    rw [Nat.sub_add_cancel hk1] at hmem
    rwa [suffixedSam_of_long base k hlen] at hmem
  have hinj : Set.InjOn (fun k => natRepr k)
      (Finset.Ico (10 ^ E) (10 ^ E + existing.card + 1)) :=
    fun a _ b _ h => natRepr_injective h
  have hcard := Finset.card_le_card_of_injOn (fun k => natRepr k) hmaps hinj
  rw [Nat.card_Ico] at hcard
  omega

/-- Lines 49-59 of `generate_users.py`: `generate_sam_account_name`. The
`while` loop (lines 55-58) starts with `sam = base`, `counter = 1`, and while
`sam` is in `existing` replaces `sam` by the suffixed candidate for the
current counter; so it returns `base` when `base` is unused, and otherwise
the candidate of the least counter `k ≥ 1` whose candidate is unused, which
`Nat.find` computes (`exists_unused_suffix` shows the loop terminates on
every finite seen-set). -/
def generate_sam_account_name (first_name last_name : Str) (existing : Finset Str) : Str :=
  if samBase first_name last_name ∈ existing then
    suffixedSam (samBase first_name last_name)
      (Nat.find (exists_unused_suffix (samBase first_name last_name) existing) + 1)
  else samBase first_name last_name

theorem sam_not_mem_existing (f l : Str) (s : Finset Str) :
    generate_sam_account_name f l s ∉ s := by
  unfold generate_sam_account_name
  split_ifs with h
  · exact Nat.find_spec (exists_unused_suffix (samBase f l) s)
  · exact h

theorem sam_eq_of_least (f l : Str) (s : Finset Str) (k : Nat)
    (hbase : samBase f l ∈ s) (hk : 1 ≤ k)
    (hfree : suffixedSam (samBase f l) k ∉ s)
    (htaken : ∀ j, 1 ≤ j → j < k → suffixedSam (samBase f l) j ∈ s) :
    generate_sam_account_name f l s = suffixedSam (samBase f l) k := by
  unfold generate_sam_account_name
  rw [if_pos hbase]
  have hfind : Nat.find (exists_unused_suffix (samBase f l) s) = k - 1 := by
    rw [Nat.find_eq_iff]
    constructor
    · rw [Nat.sub_add_cancel hk]; exact hfree
    · intro m hm
      simp only [not_not]
      exact htaken (m + 1) (by omega) (by omega)
  rw [hfind, Nat.sub_add_cancel hk]

theorem sam_bounds_of_card (f l : Str) (s : Finset Str) (hcard : s.card < 9 * 10 ^ 19) :
    (generate_sam_account_name f l s).length ≤ 20
    ∧ ∀ c ∈ generate_sam_account_name f l s, isLowerAlnum c := by
  unfold generate_sam_account_name
  split_ifs with hmem
  · set n0 := Nat.find (exists_unused_suffix (samBase f l) s) with hn0
    have hklt : n0 + 1 < 10 ^ 20 := by
      by_contra hbig
      push_neg at hbig
      have hsub : ∀ j ∈ Finset.Ico (10 ^ 19) (10 ^ 20), natRepr j ∈ s := by
        intro j hj
        rw [Finset.mem_Ico] at hj
        have hj1 : 1 ≤ j := le_trans (Nat.one_le_pow _ _ (by norm_num)) hj.1
        have hlen : (natRepr j).length = 20 := by
          have hle := natRepr_length_le 20 j hj1 hj.2
          have hge := natRepr_length_ge 19 j hj.1
          omega
        have hjk : j - 1 < n0 := by omega
        have hmin := Nat.find_min (exists_unused_suffix (samBase f l) s) hjk
        simp only [not_not] at hmin
        rw [Nat.sub_add_cancel hj1] at hmin
        rwa [suffixedSam_of_len20 _ j hlen] at hmin
      have hinj : Set.InjOn (fun j => natRepr j) (Finset.Ico ((10 : Nat) ^ 19) (10 ^ 20)) :=
        fun a _ b _ h => natRepr_injective h
      have hcard2 := Finset.card_le_card_of_injOn (fun j => natRepr j) hsub hinj
      rw [Nat.card_Ico] at hcard2
      have hpow : (10 : Nat) ^ 20 - 10 ^ 19 = 9 * 10 ^ 19 := by norm_num
      omega
    exact ⟨suffixedSam_length_le _ _ (by omega) hklt,
      suffixedSam_chars _ _ (samBase_chars f l)⟩
  · exact ⟨samBase_length f l, samBase_chars f l⟩

def DOMAIN : Str := "managed-connections.net".data

def DOMAIN_DN : Str := "DC=managed-connections,DC=net".data

/-- `BASE_OU = f"OU=ADLab,{DOMAIN_DN}"` (line 17). -/
def BASE_OU : Str := "OU=ADLab,".data ++ DOMAIN_DN

/-- `USERS_OU = f"OU=Users,{BASE_OU}"` (line 18). -/
def USERS_OU : Str := "OU=Users,".data ++ BASE_OU

def DEPARTMENTS : List Str :=
  ["HR".data, "IT".data, "Legal".data, "Finance".data, "Marketing".data, "Operations".data]

/-- `ROLE_DISTRIBUTION` (lines 24-28): the fixed per-department role quota. -/
def ROLE_DISTRIBUTION_Managers : Nat := 2

def ROLE_DISTRIBUTION_Employees : Nat := 11

def ROLE_DISTRIBUTION_Contractors : Nat := 4

def TOTAL_USERS : Nat := 100

/-- The seeded random source: `Faker` (`Faker.seed(42)`, line 12) and the
global `random` module (`random.seed(42)`, line 13) modelled as one explicit
state-threading structure, so the pipeline is a pure function of the initial
state. The two Prop fields record the library facts the code relies on:
`random.choice` returns an element of its non-empty argument and
`random.shuffle` permutes its argument. -/
structure RandomSource (σ : Type) where
  choice : Str → σ → Char × σ
  shuffle : Str → σ → Str × σ
  first_name : σ → Str × σ
  last_name : σ → Str × σ
  choice_mem : ∀ l g, l ≠ [] → (choice l g).1 ∈ l
  shuffle_perm : ∀ l g, (shuffle l g).1.Perm l

/-- Python `string.ascii_uppercase`. -/
def ascii_uppercase : Str := "ABCDEFGHIJKLMNOPQRSTUVWXYZ".data

/-- Python `string.ascii_lowercase`. -/
def ascii_lowercase : Str := "abcdefghijklmnopqrstuvwxyz".data

/-- Python `string.ascii_letters`: lowercase then uppercase. -/
def ascii_letters : Str := ascii_lowercase ++ ascii_uppercase

/-- Python `string.digits`. -/
def string_digits : Str := "0123456789".data

/-- The fixed symbol set `"!@#$%"` (lines 36 and 42). -/
def password_symbols : Str := "!@#$%".data

/-- `chars = string.ascii_letters + string.digits + "!@#$%"` (line 36). -/
def password_chars : Str := ascii_letters ++ string_digits ++ password_symbols

/-- The list comprehension `[random.choice(chars) for _ in range(n)]`
(line 44), threading the generator state left to right. -/
def choiceList {σ : Type} (R : RandomSource σ) (l : Str) : Nat → σ → Str × σ
  | 0, g => ([], g)
  | n + 1, g =>
      let p := R.choice l g
      let rest := choiceList R l n p.2
      (p.1 :: rest.1, rest.2)

/-- Lines 34-46: `generate_password`. Four mandatory characters, one per
class, then `length - 4` draws from the combined alphabet (for `length < 4`
Python's `range(length - 4)` is empty, exactly as Nat subtraction), then a
`random.shuffle` of the whole list. -/
def generate_password {σ : Type} (R : RandomSource σ) (length : Nat) (g : σ) : Str × σ :=
  let p1 := R.choice ascii_uppercase g
  let p2 := R.choice ascii_lowercase p1.2
  let p3 := R.choice string_digits p2.2
  let p4 := R.choice password_symbols p3.2
  let rest := choiceList R password_chars (length - 4) p4.2
  R.shuffle ([p1.1, p2.1, p3.1, p4.1] ++ rest.1) rest.2

/-- One output row: the dict appended to `users` (lines 98-111). -/
structure Record where
  FirstName : Str
  LastName : Str
  DisplayName : Str
  SamAccountName : Str
  UPN : Str
  Department : Str
  Role : Str
  OUPath : Str
  Password : Str
  Enabled : Str
deriving DecidableEq

/-- Lines 69-74: per-department counts. `base_per_dept = total // N`,
`remainder = total % N`, and department `i` (0-based) receives one extra
user when `i < remainder`. -/
def dept_counts (total : Nat) (depts : List Str) : List (Str × Nat) :=
  let base_per_dept := total / depts.length
  let remainder := total % depts.length
  depts.enum.map fun p => (p.2, base_per_dept + if p.1 < remainder then 1 else 0)

/-- Lines 78-86: the role blocks of one department.
`employees = dept_count - managers - contractors` is a Python `int` and may
be negative, in which case `[("Employees", "Employee")] * employees` is the
empty list. -/
def role_assignments (managers contractors dept_count : Nat) : List (Str × Str) :=
  let employees : Int := (dept_count : Int) - (managers : Int) - (contractors : Int)
  List.replicate managers ("Managers".data, "Manager".data)
    ++ pyRepeat ("Employees".data, "Employee".data) employees
    ++ List.replicate contractors ("Contractors".data, "Contractor".data)

/-- The iteration order of the two nested loops (lines 76 and 88): one
`(dept, (role_ou, role_title))` triple per record, departments in input
order, and inside a department the Manager, Employee, Contractor blocks. -/
def assignment_list (total : Nat) (depts : List Str) (managers contractors : Nat) :
    List (Str × Str × Str) :=
  (dept_counts total depts).flatMap fun dc =>
    (role_assignments managers contractors dc.2).map fun r => (dc.1, r.1, r.2)

/-- The body of the record loop (lines 88-111), one step per planned
assignment: draw the names, resolve the login, register it
(`existing_sams.add(sam)`, line 93), synthesize the password, and emit the
record. Returns the record list, the final seen-set and the final generator
state. -/
def genRecords {σ : Type} (R : RandomSource σ) :
    List (Str × Str × Str) → Finset Str → σ → List Record × Finset Str × σ
  | [], existing_sams, g => ([], existing_sams, g)
  | a :: rest, existing_sams, g =>
      let fp := R.first_name g
      let lp := R.last_name fp.2
      let display_name := fp.1 ++ " ".data ++ lp.1
      let sam := generate_sam_account_name fp.1 lp.1 existing_sams
      let upn := sam ++ "@".data ++ DOMAIN
      let ou_path := "OU=".data ++ a.2.1 ++ ",OU=".data ++ a.1 ++ ",".data ++ USERS_OU
      let pw := generate_password R 16 lp.2
      let r : Record :=
        { FirstName := fp.1, LastName := lp.1, DisplayName := display_name,
          SamAccountName := sam, UPN := upn, Department := a.1, Role := a.2.2,
          OUPath := ou_path, Password := pw.1, Enabled := "True".data }
      let out := genRecords R rest (insert sam existing_sams) pw.2
      (r :: out.1, out.2)

/-- Lines 62-113 (`generate_users`) with the configuration constants as
parameters; the script runs it at the fixed configuration (see
`generate_users` below). The seen-set starts empty (line 65). -/
def generateUsersWith {σ : Type} (R : RandomSource σ) (total : Nat) (depts : List Str)
    (managers contractors : Nat) (g : σ) : List Record :=
  (genRecords R (assignment_list total depts managers contractors) ∅ g).1

/-- `generate_users()` at the script's configuration. -/
def generate_users {σ : Type} (R : RandomSource σ) (g : σ) : List Record :=
  generateUsersWith R TOTAL_USERS DEPARTMENTS ROLE_DISTRIBUTION_Managers
    ROLE_DISTRIBUTION_Contractors g

/-- `generate_sam_account_name` with the seen-set threaded as state: the
Python function receives a reference to `existing` and only reads it (the
loop-condition membership tests); no statement of its body writes the set,
so the translated state transformer returns it unchanged. Registration of
the returned identifier happens in the caller (line 93). -/
def generate_sam_account_name_st (first_name last_name : Str) (existing : Finset Str) :
    Str × Finset Str :=
  (generate_sam_account_name first_name last_name existing, existing)

/-- A concrete deterministic random source over a `Nat` draw counter, used
to evaluate the pipeline at concrete inputs. -/
def seqSource : RandomSource Nat where
  choice l g := (l.headD 'a', g + 1)
  shuffle l g := (l, g + 1)
  first_name g := ('x' :: natRepr g, g + 1)
  last_name g := ('y' :: natRepr g, g + 1)
  choice_mem := by
    intro l g h
    cases l with
    | nil => exact absurd rfl h
    | cons a t => exact List.mem_cons_self a t
  shuffle_perm := by
    intro l g
    exact List.Perm.refl l

theorem choiceList_length {σ : Type} (R : RandomSource σ) (l : Str) :
    ∀ (n : Nat) (g : σ), ((choiceList R l n g).1).length = n := by
  intro n
  induction n with
  | zero => intro g; rfl
  | succ n ih => intro g; simp [choiceList, ih]

theorem choiceList_mem {σ : Type} (R : RandomSource σ) (l : Str) (hl : l ≠ []) :
    ∀ (n : Nat) (g : σ), ∀ c ∈ (choiceList R l n g).1, c ∈ l := by
  intro n
  induction n with
  | zero => intro g c hc; simp [choiceList] at hc
  | succ n ih =>
      intro g c hc
      simp only [choiceList] at hc
      rcases List.mem_cons.1 hc with h | h
      · subst h; exact R.choice_mem l g hl
      · exact ih _ c h

theorem dept_counts_fst (total : Nat) (depts : List Str) :
    (dept_counts total depts).map Prod.fst = depts := by
  unfold dept_counts
  rw [List.map_map]
  have h1 : (Prod.fst ∘ fun p : Nat × Str =>
      (p.2, total / depts.length + if p.1 < total % depts.length then 1 else 0)) = Prod.snd :=
    rfl
  rw [h1, List.enum_map_snd]

theorem dept_counts_snd (total : Nat) (depts : List Str) :
    (dept_counts total depts).map Prod.snd
      = (List.range depts.length).map
          (fun i => total / depts.length + if i < total % depts.length then 1 else 0) := by
  unfold dept_counts
  rw [List.map_map]
  have h1 : (Prod.snd ∘ fun p : Nat × Str =>
        (p.2, total / depts.length + if p.1 < total % depts.length then 1 else 0))
      = (fun i => total / depts.length + if i < total % depts.length then 1 else 0)
        ∘ Prod.fst := rfl
  rw [h1, ← List.map_map, List.enum_map_fst]

theorem sum_range_ite (n b r : Nat) :
    ((List.range n).map fun i => b + if i < r then 1 else 0).sum = n * b + min n r := by
  induction n with
  | zero => simp
  | succ n ih =>
      rw [List.range_succ, List.map_append, List.sum_append]
      simp only [List.map_cons, List.map_nil, List.sum_cons, List.sum_nil]
      rw [ih]
      by_cases h : n < r
      · rw [if_pos h, min_eq_left (show n ≤ r by omega), min_eq_left (show n + 1 ≤ r by omega)]
        ring
      · rw [if_neg h, min_eq_right (show r ≤ n by omega), min_eq_right (show r ≤ n + 1 by omega)]
        ring

theorem dept_counts_getElem (total : Nat) (depts : List Str) (i : Nat) (h : i < depts.length) :
    ((dept_counts total depts).map Prod.snd)[i]?
      = some (total / depts.length + if i < total % depts.length then 1 else 0) := by
  rw [dept_counts_snd, List.getElem?_map, List.getElem?_range h]
  rfl

theorem genRecords_sams_nodup {σ : Type} (R : RandomSource σ) :
    ∀ (l : List (Str × Str × Str)) (s : Finset Str) (g : σ),
      ((genRecords R l s g).1.map Record.SamAccountName).Nodup
      ∧ ∀ r ∈ (genRecords R l s g).1, r.SamAccountName ∉ s := by
  intro l
  induction l with
  | nil =>
      intro s g
      exact ⟨List.nodup_nil, by intro r hr; simp [genRecords] at hr⟩
  | cons a rest ih =>
      intro s g
      set fn := (R.first_name g).1 with hfn
      set g1 := (R.first_name g).2 with hg1
      set ln := (R.last_name g1).1 with hln
      set g2 := (R.last_name g1).2 with hg2
      set sam := generate_sam_account_name fn ln s with hsam
      set g3 := (generate_password R 16 g2).2 with hg3
      obtain ⟨r0, hr0, hr0sam⟩ :
          ∃ r0, (genRecords R (a :: rest) s g).1
              = r0 :: (genRecords R rest (insert sam s) g3).1
            ∧ r0.SamAccountName = sam := ⟨_, rfl, rfl⟩
      obtain ⟨htnodup, htmem⟩ := ih (insert sam s) g3
      constructor
      · rw [hr0, List.map_cons, hr0sam]
        refine List.nodup_cons.2 ⟨?_, htnodup⟩
        intro hmem
        obtain ⟨r, hrt, hreq⟩ := List.mem_map.1 hmem
        have := htmem r hrt
        rw [hreq] at this
        exact this (Finset.mem_insert_self sam s)
      · intro r hr
        rw [hr0] at hr
        rcases List.mem_cons.1 hr with h | h
        · subst h
          rw [hr0sam, hsam]
          exact sam_not_mem_existing fn ln s
        · intro hmem
          exact htmem r h (Finset.mem_insert_of_mem hmem)

theorem genRecords_final_seen {σ : Type} (R : RandomSource σ) :
    ∀ (l : List (Str × Str × Str)) (s : Finset Str) (g : σ),
      (genRecords R l s g).2.1
        = s ∪ ((genRecords R l s g).1.map Record.SamAccountName).toFinset := by
  intro l
  induction l with
  | nil => intro s g; simp [genRecords]
  | cons a rest ih =>
      intro s g
      set fn := (R.first_name g).1 with hfn
      set g1 := (R.first_name g).2 with hg1
      set ln := (R.last_name g1).1 with hln
      set g2 := (R.last_name g1).2 with hg2
      set sam := generate_sam_account_name fn ln s with hsam
      set g3 := (generate_password R 16 g2).2 with hg3
      have h1 : (genRecords R (a :: rest) s g).2.1
          = (genRecords R rest (insert sam s) g3).2.1 := rfl
      have h2 : (genRecords R (a :: rest) s g).1.map Record.SamAccountName
          = sam :: (genRecords R rest (insert sam s) g3).1.map Record.SamAccountName := rfl
      rw [h1, h2, ih (insert sam s) g3]
      ext x
      simp only [Finset.mem_union, Finset.mem_insert, List.mem_toFinset, List.mem_cons]
      tauto

theorem genRecords_sam_bounds {σ : Type} (R : RandomSource σ) :
    ∀ (l : List (Str × Str × Str)) (s : Finset Str) (g : σ),
      s.card + l.length ≤ 9 * 10 ^ 19 →
      ∀ r ∈ (genRecords R l s g).1,
        r.SamAccountName.length ≤ 20 ∧ ∀ c ∈ r.SamAccountName, isLowerAlnum c := by
  intro l
  induction l with
  | nil => intro s g hb r hr; simp [genRecords] at hr
  | cons a rest ih =>
      intro s g hb r hr
      set fn := (R.first_name g).1 with hfn
      set g1 := (R.first_name g).2 with hg1
      set ln := (R.last_name g1).1 with hln
      set g2 := (R.last_name g1).2 with hg2
      set sam := generate_sam_account_name fn ln s with hsam
      set g3 := (generate_password R 16 g2).2 with hg3
      obtain ⟨r0, hr0, hr0sam⟩ :
          ∃ r0, (genRecords R (a :: rest) s g).1
              = r0 :: (genRecords R rest (insert sam s) g3).1
            ∧ r0.SamAccountName = sam := ⟨_, rfl, rfl⟩
      rw [hr0] at hr
      simp only [List.length_cons] at hb
      rcases List.mem_cons.1 hr with h | h
      · subst h
        rw [hr0sam, hsam]
        exact sam_bounds_of_card fn ln s (by omega)
      · refine ih (insert sam s) g3 ?_ r h
        have := Finset.card_insert_le sam s
        omega

/-- C1: for every generated population — any seeded random source, any
initial state, any configuration — the login identifiers (`SamAccountName`)
of the records are pairwise distinct: the set of LoginIds has exactly as
many elements as the population has records. -/
theorem C1_loginIds_unique (σ : Type) (R : RandomSource σ) (total : Nat)
    (depts : List Str) (managers contractors : Nat) (g : σ) :
    ((generateUsersWith R total depts managers contractors g).map
        Record.SamAccountName).Nodup
    ∧ ((generateUsersWith R total depts managers contractors g).map
        Record.SamAccountName).toFinset.card
      = (generateUsersWith R total depts managers contractors g).length := by
  have h : ((generateUsersWith R total depts managers contractors g).map
      Record.SamAccountName).Nodup :=
    (genRecords_sams_nodup R (assignment_list total depts managers contractors) ∅ g).1
  refine ⟨h, ?_⟩
  rw [List.toFinset_card_of_nodup h, List.length_map]

/-- C2: for a positive population and a non-empty ordered unit list, the
allocation step pairs the units in input order with counts that sum exactly
to the population, differ pairwise by at most one, and are front-loaded:
unit `i` receives `total / N + 1` when `i < total % N` and `total / N`
otherwise. (A non-empty unit list is required: Python raises
`ZeroDivisionError` on `TOTAL_USERS // len(DEPARTMENTS)` for an empty
list.) -/
theorem C2_allocation_front_loaded (total : Nat) (depts : List Str)
    (hpos : 0 < total) (hne : depts ≠ []) :
    (dept_counts total depts).map Prod.fst = depts
    ∧ ((dept_counts total depts).map Prod.snd).sum = total
    ∧ (∀ i, i < depts.length →
        ((dept_counts total depts).map Prod.snd)[i]?
          = some (total / depts.length + if i < total % depts.length then 1 else 0))
    ∧ ∀ x ∈ (dept_counts total depts).map Prod.snd,
        ∀ y ∈ (dept_counts total depts).map Prod.snd, x ≤ y + 1 := by
  have hN : 0 < depts.length := List.length_pos.2 hne
  have hmod : total % depts.length < depts.length := Nat.mod_lt _ hN
  refine ⟨dept_counts_fst total depts, ?_, ?_, ?_⟩
  · rw [dept_counts_snd, sum_range_ite, min_eq_right (le_of_lt hmod), Nat.div_add_mod]
  · intro i hi
    exact dept_counts_getElem total depts i hi
  · intro x hx y hy
    rw [dept_counts_snd] at hx hy
    obtain ⟨i, _, rfl⟩ := List.mem_map.1 hx
    obtain ⟨j, _, rfl⟩ := List.mem_map.1 hy
    split_ifs <;> omega

/-- C2 witness: the script's configuration, 100 users over the six
departments — counts `[17, 17, 17, 17, 16, 16]`. -/
theorem C2_allocation_front_loaded_wit :
    (0 < 100 ∧ DEPARTMENTS ≠ [])
    ∧ ((dept_counts 100 DEPARTMENTS).map Prod.fst = DEPARTMENTS
      ∧ ((dept_counts 100 DEPARTMENTS).map Prod.snd).sum = 100
      ∧ (∀ i, i < DEPARTMENTS.length →
          ((dept_counts 100 DEPARTMENTS).map Prod.snd)[i]?
            = some (100 / DEPARTMENTS.length + if i < 100 % DEPARTMENTS.length then 1 else 0))
      ∧ ∀ x ∈ (dept_counts 100 DEPARTMENTS).map Prod.snd,
          ∀ y ∈ (dept_counts 100 DEPARTMENTS).map Prod.snd, x ≤ y + 1) :=
  ⟨⟨by norm_num, by decide⟩, C2_allocation_front_loaded 100 DEPARTMENTS (by norm_num) (by decide)⟩

/-- C3 counterexample: with candidate base `"jsmith"` already seen, the code
produces `"jsmith1"`, not the claimed `"jsmit1"`: `base[:20-len("1")]` is
`base[:19]`, which removes nothing from a 6-character base — the slice
truncates only what extends beyond `20 - len(str(k))` characters. -/
theorem C3_collision_counterexample :
    generate_sam_account_name "John".data "Smith".data {"jsmith".data} = "jsmith1".data
    ∧ "jsmith1".data ≠ "jsmit1".data := by
  constructor
  · have h := sam_eq_of_least "John".data "Smith".data {"jsmith".data} 1
      (by decide) le_rfl (by decide) (fun j h1 h2 => absurd (h1.trans_lt h2) (lt_irrefl 1))
    rw [h]
    decide
  · decide

/-- C3 (amended): on a collision the resolver keeps the first
`20 - len(str(k))` characters of the candidate base — truncating from the
tail only what exceeds that length, not always exactly `len(str(k))`
characters — and appends the decimal form of the smallest viable `k`; for
candidate base `"jsmith"` the second record therefore gets `"jsmith1"`. -/
theorem C3_collision_truncation (fn ln : Str) (s : Finset Str) (k : Nat)
    (hbase : samBase fn ln ∈ s) (hk : 1 ≤ k)
    (hfree : suffixedSam (samBase fn ln) k ∉ s)
    (htaken : ∀ j, 1 ≤ j → j < k → suffixedSam (samBase fn ln) j ∈ s) :
    generate_sam_account_name fn ln s
      = pySliceTo (samBase fn ln) ((20 : Int) - (natRepr k).length) ++ natRepr k := by
  rw [sam_eq_of_least fn ln s k hbase hk hfree htaken]
  rfl

/-- C3 witness: the `"jsmith"` collision at counter 1. -/
theorem C3_collision_truncation_wit :
    (samBase "John".data "Smith".data ∈ ({"jsmith".data} : Finset Str)
      ∧ suffixedSam (samBase "John".data "Smith".data) 1 ∉ ({"jsmith".data} : Finset Str))
    ∧ generate_sam_account_name "John".data "Smith".data {"jsmith".data}
        = pySliceTo (samBase "John".data "Smith".data) ((20 : Int) - (natRepr 1).length)
          ++ natRepr 1 :=
  ⟨⟨by decide, by decide⟩,
    C3_collision_truncation "John".data "Smith".data {"jsmith".data} 1 (by decide) le_rfl
      (by decide) (fun j h1 h2 => absurd (h1.trans_lt h2) (lt_irrefl 1))⟩

/-- C4: for every target length ≥ 4 (the code's default is 16), the
generated password has exactly the target length, draws every character from
the combined alphabet (letters, digits, and the fixed symbols), and contains
at least one character of each of the four classes: uppercase, lowercase,
digit, symbol. -/
theorem C4_password_policy (σ : Type) (R : RandomSource σ) (len : Nat) (g : σ)
    (hlen : 4 ≤ len) :
    ((generate_password R len g).1).length = len
    ∧ (∀ c ∈ (generate_password R len g).1, c ∈ password_chars)
    ∧ (∃ c ∈ (generate_password R len g).1, c ∈ ascii_uppercase)
    ∧ (∃ c ∈ (generate_password R len g).1, c ∈ ascii_lowercase)
    ∧ (∃ c ∈ (generate_password R len g).1, c ∈ string_digits)
    ∧ (∃ c ∈ (generate_password R len g).1, c ∈ password_symbols) := by
  set p1 := R.choice ascii_uppercase g with hp1
  set p2 := R.choice ascii_lowercase p1.2 with hp2
  set p3 := R.choice string_digits p2.2 with hp3
  set p4 := R.choice password_symbols p3.2 with hp4
  set rest := choiceList R password_chars (len - 4) p4.2 with hrest
  have hpw : generate_password R len g
      = R.shuffle ([p1.1, p2.1, p3.1, p4.1] ++ rest.1) rest.2 := rfl
  have hperm : ((generate_password R len g).1).Perm ([p1.1, p2.1, p3.1, p4.1] ++ rest.1) := by
    rw [hpw]
    exact R.shuffle_perm _ _
  have hc1 : p1.1 ∈ ascii_uppercase := R.choice_mem _ _ (by decide)
  have hc2 : p2.1 ∈ ascii_lowercase := R.choice_mem _ _ (by decide)
  have hc3 : p3.1 ∈ string_digits := R.choice_mem _ _ (by decide)
  have hc4 : p4.1 ∈ password_symbols := R.choice_mem _ _ (by decide)
  have hrestmem : ∀ c ∈ rest.1, c ∈ password_chars := by
    intro c hc
    rw [hrest] at hc
    exact choiceList_mem R password_chars (by decide) (len - 4) p4.2 c hc
  have hrestlen : rest.1.length = len - 4 := by
    rw [hrest]
    exact choiceList_length R password_chars (len - 4) p4.2
  refine ⟨?_, ?_, ?_, ?_, ?_, ?_⟩
  · rw [hperm.length_eq]
    simp only [List.length_append, List.length_cons, List.length_nil]
    omega
  · intro c hc
    rcases List.mem_append.1 (hperm.mem_iff.1 hc) with h | h
    · simp only [List.mem_cons, List.not_mem_nil, or_false] at h
      rcases h with rfl | rfl | rfl | rfl <;>
        simp [password_chars, ascii_letters, List.mem_append, hc1, hc2, hc3, hc4]
    · exact hrestmem c h
  · exact ⟨p1.1, hperm.mem_iff.2 (by simp), hc1⟩
  · exact ⟨p2.1, hperm.mem_iff.2 (by simp), hc2⟩
  · exact ⟨p3.1, hperm.mem_iff.2 (by simp), hc3⟩
  · exact ⟨p4.1, hperm.mem_iff.2 (by simp), hc4⟩

/-- C4 witness: the default length 16 at a concrete source. -/
theorem C4_password_policy_wit :
    4 ≤ 16
    ∧ (((generate_password seqSource 16 0).1).length = 16
      ∧ (∀ c ∈ (generate_password seqSource 16 0).1, c ∈ password_chars)
      ∧ (∃ c ∈ (generate_password seqSource 16 0).1, c ∈ ascii_uppercase)
      ∧ (∃ c ∈ (generate_password seqSource 16 0).1, c ∈ ascii_lowercase)
      ∧ (∃ c ∈ (generate_password seqSource 16 0).1, c ∈ string_digits)
      ∧ (∃ c ∈ (generate_password seqSource 16 0).1, c ∈ password_symbols)) :=
  ⟨by norm_num, C4_password_policy Nat seqSource 16 0 (by norm_num)⟩

/-- C5: generation is deterministic in the seed: two runs with the same
seeded source and initial state and the same configuration produce
identical ordered record sequences, element for element (the embedded
pipeline is a pure function of the explicit generator state). -/
theorem C5_deterministic (σ : Type) (R1 R2 : RandomSource σ) (g1 g2 : σ)
    (total : Nat) (depts : List Str) (managers contractors : Nat)
    (hR : R1 = R2) (hg : g1 = g2) :
    generateUsersWith R1 total depts managers contractors g1
      = generateUsersWith R2 total depts managers contractors g2
    ∧ ∀ i : Nat,
        (generateUsersWith R1 total depts managers contractors g1)[i]?
          = (generateUsersWith R2 total depts managers contractors g2)[i]? := by
  subst hR
  subst hg
  exact ⟨rfl, fun i => rfl⟩

/-- C5 witness: two runs at the script's configuration and the same state. -/
theorem C5_deterministic_wit :
    (seqSource = seqSource ∧ (0 : Nat) = 0)
    ∧ (generateUsersWith seqSource 100 DEPARTMENTS 2 4 0
        = generateUsersWith seqSource 100 DEPARTMENTS 2 4 0
      ∧ ∀ i : Nat,
          (generateUsersWith seqSource 100 DEPARTMENTS 2 4 0)[i]?
            = (generateUsersWith seqSource 100 DEPARTMENTS 2 4 0)[i]?) :=
  ⟨⟨rfl, rfl⟩, C5_deterministic Nat seqSource seqSource 0 0 100 DEPARTMENTS 2 4 rfl rfl⟩

/-- C6 counterexample: one department with allocated count 5, quota
`ManagerCount = 2, ContractorCount = 4` (5 < 6). The claim says the run
aborts with `InvalidAllocation` and produces no records; the code instead
proceeds — the negative Employee count makes an empty Employee block
(`[...] * -1 == []` in Python) — and produces six records. -/
theorem C6_invalid_allocation_counterexample :
    (generateUsersWith seqSource 5 ["HR".data] 2 4 0).length = 6 := by
  decide

/-- C6 (amended): when a unit's allocated count is smaller than
`ManagerCount + ContractorCount`, no error is signalled: the Employee tier
becomes the empty block and the unit silently emits exactly
`ManagerCount + ContractorCount` records (exceeding its allocated count),
instead of aborting. -/
theorem C6_negative_employees_silent (managers contractors dept_count : Nat)
    (h : dept_count < managers + contractors) :
    role_assignments managers contractors dept_count
      = List.replicate managers ("Managers".data, "Manager".data)
        ++ List.replicate contractors ("Contractors".data, "Contractor".data)
    ∧ (role_assignments managers contractors dept_count).length
        = managers + contractors := by
  have hneg : ((dept_count : Int) - (managers : Int) - (contractors : Int)).toNat = 0 := by
    omega
  constructor
  · simp only [role_assignments, pyRepeat]
    rw [hneg]
    simp
  · simp only [role_assignments, pyRepeat]
    rw [hneg]
    simp

/-- C6 witness for the amended claim: quota (2, 4) against unit count 5. -/
theorem C6_negative_employees_silent_wit :
    5 < 2 + 4
    ∧ (role_assignments 2 4 5
        = List.replicate 2 ("Managers".data, "Manager".data)
          ++ List.replicate 4 ("Contractors".data, "Contractor".data)
      ∧ (role_assignments 2 4 5).length = 2 + 4) :=
  ⟨by norm_num, C6_negative_employees_silent 2 4 5 (by norm_num)⟩

/-- C7 counterexample: first name `"-"` and last name `"--"` strip to the
empty candidate base, yet the code does not fail with any
`EmptyIdentifierBase` error: it returns the empty string as the login
identifier, and the caller builds a record with it. -/
theorem C7_empty_base_counterexample :
    samBase "-".data "--".data = []
    ∧ generate_sam_account_name "-".data "--".data ∅ = [] := by
  constructor
  · decide
  · decide

/-- C7 (amended): an empty stripped candidate base is not rejected — the
code has no `EmptyIdentifierBase` error. When the empty base is not yet
taken, the resolver returns the empty identifier and a record is produced
with it. -/
theorem C7_empty_base_no_error (fn ln : Str) (s : Finset Str)
    (hb : samBase fn ln = []) (hs : [] ∉ s) :
    generate_sam_account_name fn ln s = [] := by
  have hnot : samBase fn ln ∉ s := by
    rw [hb]
    exact hs
  unfold generate_sam_account_name
  rw [if_neg hnot]
  exact hb

/-- C7 witness: the stripped-to-empty names against the empty seen-set. -/
theorem C7_empty_base_no_error_wit :
    (samBase "-".data "--".data = [] ∧ [] ∉ (∅ : Finset Str))
    ∧ generate_sam_account_name "-".data "--".data ∅ = [] :=
  ⟨⟨by decide, by decide⟩,
    C7_empty_base_no_error "-".data "--".data ∅ (by decide) (by decide)⟩

/-- C8: every record of the generated population (any seeded source, the
script's configuration) has a login identifier of at most 20 characters
consisting only of lowercase alphanumeric characters — including records
resolved through the collision path, whose counters stay below the `10^20`
digit threshold because a 100-record population keeps the seen-set far
smaller than `9 * 10^19`. -/
theorem C8_loginId_bounds (σ : Type) (R : RandomSource σ) (g : σ) :
    (generate_users R g).Forall
      (fun r => r.SamAccountName.length ≤ 20 ∧ ∀ c ∈ r.SamAccountName, isLowerAlnum c) := by
  rw [List.forall_iff_forall_mem]
  intro r hr
  have hr' : r ∈ (genRecords R (assignment_list TOTAL_USERS DEPARTMENTS
      ROLE_DISTRIBUTION_Managers ROLE_DISTRIBUTION_Contractors) ∅ g).1 := hr
  refine genRecords_sam_bounds R _ ∅ g ?_ r hr'
  have hlen : (assignment_list TOTAL_USERS DEPARTMENTS ROLE_DISTRIBUTION_Managers
      ROLE_DISTRIBUTION_Contractors).length = 100 := by decide
  rw [Finset.card_empty, hlen]
  norm_num

/-- C9: the uniqueness resolver's search over `k = 1, 2, 3, …` terminates
for every candidate and every finite seen-set — `generate_sam_account_name`
is total, its loop always reaching an unused candidate
(`exists_unused_suffix`) — and the identifier it returns is never in the
seen-set. -/
theorem C9_resolver_terminates (fn ln : Str) (s : Finset Str) :
    generate_sam_account_name fn ln s ∉ s :=
  sam_not_mem_existing fn ln s

/-- C10: resolving a login identifier does not modify the seen-set — the
state-threaded resolver returns its input set unchanged — and registration
is performed separately by the caller: across the generation loop the final
seen-set is the initial set united with exactly the issued identifiers. -/
theorem C10_resolver_frame (fn ln : Str) (s : Finset Str)
    (σ : Type) (R : RandomSource σ) (l : List (Str × Str × Str)) (g : σ) :
    (generate_sam_account_name_st fn ln s).2 = s
    ∧ (genRecords R l s g).2.1
        = s ∪ ((genRecords R l s g).1.map Record.SamAccountName).toFinset :=
  ⟨rfl, genRecords_final_seen R l s g⟩

end GenUsers
